import Mathlib

/-!
Verification of the manifest wrapper layer of `nufb` (`nufb/wrappers.py`,
`nufb/const.py`) against its natural-language specification.

The Python code mutates shared dictionaries and lists, and the specification
makes identity claims ("the very same list object"), so the embedding uses an
explicit heap: `Val` is a Python value (strings, integers, `None`, and
references into the heap), `Obj` is a heap-allocated object (a dict, modelled
as an ordered association list the way Python dicts are ordered, or a list),
and a `Heap` maps addresses to objects.  Object identity is address equality.

`nufb/utils.py` itself is not part of the sources; its behaviour is modelled
from the specification (see the doc comments of `ensure_string`, `ensure_list`
and `Err.catchesTypeError`).  Everything else is translated directly from
`nufb/wrappers.py` and `nufb/const.py`.
-/

namespace Nufb

/-! ## Constants (`nufb/const.py`) -/

/-- `const.MANIFEST_BRANCH` -/
def MANIFEST_BRANCH : String := "branch"

/-- `const.MANIFEST_BRANCH_DEFAULT` -/
def MANIFEST_BRANCH_DEFAULT : String := "master"

/-- `const.MANIFEST_ID` -/
def MANIFEST_ID : String := "id"

/-- `const.MANIFEST_APP_ID` -/
def MANIFEST_APP_ID : String := "app-id"

/-- `const.MANIFEST_MODULES` -/
def MANIFEST_MODULES : String := "modules"

/-- `const.MODULE_NAME` -/
def MODULE_NAME : String := "name"

/-- `const.MODULE_SOURCES` -/
def MODULE_SOURCES : String := "sources"

/-- `const.INIT_MODULE_NAME` -/
def INIT_MODULE_NAME : String := "init"

/-- `const.FINISH_MODULE_NAME` -/
def FINISH_MODULE_NAME : String := "finish"

/-! ## Heap model for Python values -/

/-- A heap address (Python object identity). -/
abbrev Addr := Nat

/-- A Python value: a string, an integer, `None`, or a reference to a
heap-allocated container (dict or list). -/
inductive Val where
  | str (s : String)
  | int (n : Int)
  | nil
  | ref (a : Addr)
deriving DecidableEq, Repr

/-- A heap object: a dict (ordered association list, as Python dicts preserve
insertion order) or a list. -/
inductive Obj where
  | dict (entries : List (String × Val))
  | list (items : List Val)
deriving DecidableEq, Repr

/-- The heap: address `a` denotes the `a`-th allocated object. -/
abbrev Heap := List Obj

/-- Read the object at an address. -/
def heapGet (h : Heap) (a : Addr) : Option Obj :=
  h.get? a

/-- Overwrite the object at an address (in-place mutation of a container). -/
def heapSet (h : Heap) (a : Addr) (o : Obj) : Heap :=
  h.set a o

/-- Allocate a fresh object, returning the new heap and the fresh address. -/
def heapAlloc (h : Heap) (o : Obj) : Heap × Addr :=
  (h ++ [o], h.length)

/-- `d[key]` on the entries of a dict: the value of the first matching key. -/
def dictGet : List (String × Val) → String → Option Val
  | [], _ => none
  | (k, v) :: rest, key => if k = key then some v else dictGet rest key

/-- `d[key] = v` on the entries of a dict: replace the value in place if the
key is present (keeping its position, as Python dicts do), else append. -/
def dictSet : List (String × Val) → String → Val → List (String × Val)
  | [], key, v => [(key, v)]
  | (k, w) :: rest, key, v =>
    if k = key then (k, v) :: rest else (k, w) :: dictSet rest key v

/-- `d.pop(key, None)` on the entries of a dict: drop the first entry with the
given key, if any. -/
def dictPop : List (String × Val) → String → List (String × Val)
  | [], _ => []
  | (k, w) :: rest, key => if k = key then rest else (k, w) :: dictPop rest key

/-- Well-formed dict entries: no duplicate keys (always true of entry lists
that come from real Python dicts). -/
def dictWF (es : List (String × Val)) : Prop :=
  (es.map Prod.fst).Nodup

/-! ## Errors

The specification describes error *kinds*, explicitly "conceptual, not
concrete type names" (spec §7): a construction-time conflicting-key error
(raised as `ValueError` in `Manifest.__init__`), a field-level type error,
and a field-level missing-field signal distinguishable from a plain type
error. -/

/-- The error kinds of the wrapper layer (spec §7).  `conflictingKey` models
the `ValueError` raised by `Manifest.__init__`; `typeError` carries a detail
string identifying which lookup failed; `missingField` is the "missing"
signal of the ensure-string helper. -/
inductive Err where
  | typeError (detail : String)
  | missingField (key : String)
  | conflictingKey (k1 k2 : String)
deriving DecidableEq, Repr

/-- Modelled from the spec: the error-class hierarchy of `nufb.utils` is not
under the sources, so which errors a Python `except TypeError` handler catches
must be modelled.  The spec requires the missing-field signal to be
"distinguishable from TypeError by callers" (§7) while its own testable
properties demand that the wrappers' `except TypeError` handlers also fire on
an absent key: the id read falls back to the legacy key when the primary key
is absent (§8.3) and `find_module` skips a module whose name field is absent
(§8.10).  Both hold of a missing-field error that specializes the type error
(remaining a distinct, distinguishable kind); so the handlers catch
`typeError` and `missingField`, and nothing else. -/
def Err.catchesTypeError : Err → Bool
  | .typeError _ => true
  | .missingField _ => true
  | .conflictingKey _ _ => false

deriving instance DecidableEq for Except

/-! ## Field-access helpers (`nufb/utils.py`, modelled from the spec) -/

/-- Modelled from the spec: `nufb/utils.py` is not under the sources (only its
tests and callers are).  Spec §4.3 ensure-list: "given a mapping and key,
return the existing list value, or create/store/return a new empty list if the
key is absent; raise TypeError if the existing value is neither absent nor a
list."  The returned address is the identity of the list object.  The
behaviour on the fresh-list path (create, store into the mapping, return the
same object) follows the tests in `nufb/tests/test_utils.py`. -/
def ensure_list (h : Heap) (d : Val) (key : String) : Except Err (Heap × Addr) :=
  match d with
  | Val.ref da =>
    match heapGet h da with
    | some (Obj.dict es) =>
      match dictGet es key with
      | some (Val.ref a) =>
        match heapGet h a with
        | some (Obj.list _) => Except.ok (h, a)
        | _ => Except.error (Err.typeError key)
      | some _ => Except.error (Err.typeError key)
      | none =>
        let p := heapAlloc h (Obj.list [])
        Except.ok (heapSet p.1 da (Obj.dict (dictSet es key (Val.ref p.2))), p.2)
    | _ => Except.error (Err.typeError key)
  | _ => Except.error (Err.typeError key)

/-- Modelled from the spec: `nufb/utils.py` is not under the sources.  Spec
§4.3 ensure-string-with-default: "given a mapping, key, and optional default,
return the string value, the default if absent and a default was given, or
raise: TypeError if present-and-wrong-type, a distinguishable missing signal
if absent and no default given." -/
def ensure_string (h : Heap) (d : Val) (key : String) (default : Option String) :
    Except Err String :=
  match d with
  | Val.ref da =>
    match heapGet h da with
    | some (Obj.dict es) =>
      match dictGet es key with
      | some (Val.str s) => Except.ok s
      | some _ => Except.error (Err.typeError key)
      | none =>
        match default with
        | some s => Except.ok s
        | none => Except.error (Err.missingField key)
    | _ => Except.error (Err.typeError key)
  | _ => Except.error (Err.typeError key)

/-- Modelled from the spec: `nufb/utils.py` is not under the sources.  Spec
§4.3 expect-type (at type `str`): "assert a value being written matches the
required type, else TypeError, before storing." -/
def expect_type_str (v : Val) : Except Err Unit :=
  match v with
  | Val.str _ => Except.ok ()
  | _ => Except.error (Err.typeError "expect_type")

/-! ## `Module` (`nufb/wrappers.py`, class `Module`) -/

/-- `Module`: wraps the raw manifest module data.  `data` is the reference to
the wrapped mapping; wrapper equality is identity of the wrapped data, as a
`Module` holds nothing else. -/
structure Module where
  data : Val
deriving DecidableEq, Repr

/-- `Module.new(name, **fields)`: build a fresh mapping from the extra fields,
set `fields[const.MODULE_NAME] = name` (overwriting any `name` entry among the
extra fields), allocate it, and wrap it without copying. -/
def Module.new (h : Heap) (name : String) (fields : List (String × Val)) :
    Heap × Module :=
  let p := heapAlloc h (Obj.dict (dictSet fields MODULE_NAME (Val.str name)))
  (p.1, Module.mk (Val.ref p.2))

/-- `Module.name` getter: `utils.ensure_string(self.data, const.MODULE_NAME)`. -/
def Module.name (h : Heap) (m : Module) : Except Err String :=
  ensure_string h m.data MODULE_NAME none

/-- `Module.__init__(data)`: wrap the given raw data; `if data is None:
data = {}` allocates a fresh empty dict and wraps that instead. -/
def Module.init (h : Heap) (data : Val) : Heap × Module :=
  match data with
  | Val.nil =>
    let p := heapAlloc h (Obj.dict [])
    (p.1, Module.mk (Val.ref p.2))
  | d => (h, Module.mk d)

/-- `[Module(item) for item in raw]`: wrap each raw entry in order, threading
the heap through the fresh-dict allocations `Module.__init__` performs for
`None` entries. -/
def wrapModules (h : Heap) : List Val → Heap × List Module
  | [] => (h, [])
  | item :: rest =>
    let p := Module.init h item
    let q := wrapModules p.1 rest
    (q.1, p.2 :: q.2)

/-! ## `Manifest` (`nufb/wrappers.py`, class `Manifest`) -/

/-- `Manifest`: the raw data reference plus the cached derived state
(`_id`, `_modules`, `_raw_modules`, `_init_module`, `_finish_module`),
exactly the attributes of the Python class.  The cached wrapper list
`_modules` is held by value; the cached raw list `_raw_modules` is held by
address (its identity). -/
structure Manifest where
  data : Val
  _id : Option String
  _modules : Option (List Module)
  _raw_modules : Option Addr
  _init_module : Option Module
  _finish_module : Option Module
deriving DecidableEq, Repr

/-- `Manifest.__init__(data)`: default the data to a fresh empty dict, clear
all caches, and raise the conflicting-key error (a `ValueError` in the code)
when both `const.MANIFEST_ID` and `const.MANIFEST_APP_ID` are present.  This
is the only construction-time validation. -/
def Manifest.init (h : Heap) (dataOpt : Option Val) : Except Err (Heap × Manifest) :=
  match dataOpt with
  | none =>
    let p := heapAlloc h (Obj.dict [])
    Except.ok (p.1, ⟨Val.ref p.2, none, none, none, none, none⟩)
  | some d =>
    match d with
    | Val.ref da =>
      match heapGet h da with
      | some (Obj.dict es) =>
        if (dictGet es MANIFEST_ID).isSome ∧ (dictGet es MANIFEST_APP_ID).isSome then
          Except.error (Err.conflictingKey MANIFEST_ID MANIFEST_APP_ID)
        else
          Except.ok (h, ⟨d, none, none, none, none, none⟩)
      | _ => Except.error (Err.typeError "in")
    | _ => Except.error (Err.typeError "in")

/-- The uncached branch of the `Manifest.id` getter: try the primary key, on a
caught error try the legacy key, on a second caught error re-raise the
original (`raise e from None`); an uncaught error propagates as is. -/
def Manifest.id_lookup (h : Heap) (m : Manifest) : Except Err (Manifest × String) :=
  match ensure_string h m.data MANIFEST_ID none with
  | Except.ok s => Except.ok ({ m with _id := some s }, s)
  | Except.error e =>
    if e.catchesTypeError then
      match ensure_string h m.data MANIFEST_APP_ID none with
      | Except.ok s => Except.ok ({ m with _id := some s }, s)
      | Except.error e2 =>
        if e2.catchesTypeError then Except.error e else Except.error e2
    else Except.error e

/-- `Manifest.id` getter: `if not self._id:` re-derives via `id_lookup` when
the cache is `None` *or holds a falsy (empty) string*, else returns the
cache. -/
def Manifest.id (h : Heap) (m : Manifest) : Except Err (Manifest × String) :=
  match m._id with
  | some s => if s = "" then Manifest.id_lookup h m else Except.ok (m, s)
  | none => Manifest.id_lookup h m

/-- `Manifest.id` setter: `utils.expect_type(value, str)`, then set the cache,
store under `const.MANIFEST_ID`, and `pop` `const.MANIFEST_APP_ID`. -/
def Manifest.set_id (h : Heap) (m : Manifest) (value : Val) :
    Except Err (Heap × Manifest) :=
  match expect_type_str value with
  | Except.error e => Except.error e
  | Except.ok _ =>
    match value with
    | Val.str s =>
      match m.data with
      | Val.ref da =>
        match heapGet h da with
        | some (Obj.dict es) =>
          Except.ok
            (heapSet h da
              (Obj.dict (dictPop (dictSet es MANIFEST_ID (Val.str s)) MANIFEST_APP_ID)),
             { m with _id := some s })
        | _ => Except.error (Err.typeError MANIFEST_ID)
      | _ => Except.error (Err.typeError MANIFEST_ID)
    | _ => Except.error (Err.typeError "expect_type")

/-- `Manifest._process_modules`: materialize the raw modules list via
`utils.ensure_list(self.data, const.MANIFEST_MODULES)` and build the parallel
wrapper list `[Module(item) for item in self._raw_modules]`, where
`Module.__init__` replaces a `None` entry by a fresh empty dict for its own
wrapper (the raw list keeps the `None`). -/
def Manifest.process_modules (h : Heap) (m : Manifest) : Except Err (Heap × Manifest) :=
  match ensure_list h m.data MANIFEST_MODULES with
  | Except.error e => Except.error e
  | Except.ok (h2, a) =>
    match heapGet h2 a with
    | some (Obj.list items) =>
      let q := wrapModules h2 items
      Except.ok (q.1,
        { m with
          _raw_modules := some a
          _modules := some q.2 })
    | _ => Except.error (Err.typeError MANIFEST_MODULES)

/-- `Manifest.raw_modules` property: materialize on first access, then return
the cached raw list (by identity). -/
def Manifest.raw_modules (h : Heap) (m : Manifest) :
    Except Err (Heap × Manifest × Addr) :=
  match m._raw_modules with
  | some a => Except.ok (h, m, a)
  | none =>
    match Manifest.process_modules h m with
    | Except.error e => Except.error e
    | Except.ok (h2, m2) =>
      match m2._raw_modules with
      | some a => Except.ok (h2, m2, a)
      | none => Except.error (Err.typeError MANIFEST_MODULES)

/-- `Manifest.modules` property: materialize on first access, then return the
cached wrapper list. -/
def Manifest.modules (h : Heap) (m : Manifest) :
    Except Err (Heap × Manifest × List Module) :=
  match m._modules with
  | some ms => Except.ok (h, m, ms)
  | none =>
    match Manifest.process_modules h m with
    | Except.error e => Except.error e
    | Except.ok (h2, m2) =>
      match m2._modules with
      | some ms => Except.ok (h2, m2, ms)
      | none => Except.error (Err.typeError MANIFEST_MODULES)

/-- Python `list.insert(pos, v)`: negative positions count from the end and
clamp at `0`; positions past the end append. -/
def pyListInsert {α : Type} (l : List α) (pos : Int) (v : α) : List α :=
  let n := (if pos < 0 then max 0 ((l.length : Int) + pos) else pos).toNat
  l.take n ++ v :: l.drop n

/-- `Manifest.add_module(module, position=None)`: read `self.raw_modules` and
`self.modules` (materializing if needed), then append to both, or insert into
both at `position`. -/
def Manifest.add_module (h : Heap) (m : Manifest) (module : Module)
    (position : Option Int) : Except Err (Heap × Manifest) :=
  match Manifest.raw_modules h m with
  | Except.error e => Except.error e
  | Except.ok (h1, m1, a) =>
    match Manifest.modules h1 m1 with
    | Except.error e => Except.error e
    | Except.ok (h2, m2, ms) =>
      match heapGet h2 a with
      | some (Obj.list items) =>
        match position with
        | none =>
          Except.ok (heapSet h2 a (Obj.list (items ++ [module.data])),
                     { m2 with _modules := some (ms ++ [module]) })
        | some p =>
          Except.ok (heapSet h2 a (Obj.list (pyListInsert items p module.data)),
                     { m2 with _modules := some (pyListInsert ms p module) })
      | _ => Except.error (Err.typeError MANIFEST_MODULES)

/-- The loop of `Manifest.find_module`: scan the wrapper modules in order,
return the first whose `name` equals the given string; a name access error
caught by the `except TypeError` handler means "no match" for that module. -/
def findFirst (h : Heap) (name : String) : List Module → Except Err (Option Module)
  | [] => Except.ok none
  | mod :: rest =>
    match Module.name h mod with
    | Except.ok n =>
      if n = name then Except.ok (some mod) else findFirst h name rest
    | Except.error e =>
      if e.catchesTypeError then findFirst h name rest else Except.error e

/-- `Manifest.find_module(name)`: materialize `self.modules` if needed, then
scan with `findFirst`; `None` if no module matches. -/
def Manifest.find_module (h : Heap) (m : Manifest) (name : String) :
    Except Err (Heap × Manifest × Option Module) :=
  match Manifest.modules h m with
  | Except.error e => Except.error e
  | Except.ok (h2, m2, ms) =>
    match findFirst h2 name ms with
    | Except.error e => Except.error e
    | Except.ok r => Except.ok (h2, m2, r)

/-- `Manifest.init_module` property: memoized; look up by
`const.INIT_MODULE_NAME`, else create `Module.new(const.INIT_MODULE_NAME)` and
`add_module(module, 0)`. -/
def Manifest.init_module (h : Heap) (m : Manifest) :
    Except Err (Heap × Manifest × Module) :=
  match m._init_module with
  | some mod => Except.ok (h, m, mod)
  | none =>
    match Manifest.find_module h m INIT_MODULE_NAME with
    | Except.error e => Except.error e
    | Except.ok (h1, m1, some mod) =>
      Except.ok (h1, { m1 with _init_module := some mod }, mod)
    | Except.ok (h1, m1, none) =>
      let p := Module.new h1 INIT_MODULE_NAME []
      match Manifest.add_module p.1 m1 p.2 (some 0) with
      | Except.error e => Except.error e
      | Except.ok (h2, m2) =>
        Except.ok (h2, { m2 with _init_module := some p.2 }, p.2)

/-- `Manifest.finish_module` property: memoized; look up by
`const.FINISH_MODULE_NAME`, else create `Module.new(const.FINISH_MODULE_NAME)`
and `add_module(module)` (appended at the end). -/
def Manifest.finish_module (h : Heap) (m : Manifest) :
    Except Err (Heap × Manifest × Module) :=
  match m._finish_module with
  | some mod => Except.ok (h, m, mod)
  | none =>
    match Manifest.find_module h m FINISH_MODULE_NAME with
    | Except.error e => Except.error e
    | Except.ok (h1, m1, some mod) =>
      Except.ok (h1, { m1 with _finish_module := some mod }, mod)
    | Except.ok (h1, m1, none) =>
      let p := Module.new h1 FINISH_MODULE_NAME []
      match Manifest.add_module p.1 m1 p.2 none with
      | Except.error e => Except.error e
      | Except.ok (h2, m2) =>
        Except.ok (h2, { m2 with _finish_module := some p.2 }, p.2)

/-! ## Basic heap and dict lemmas -/

theorem heapGet_lt {h : Heap} {a : Addr} {o : Obj} (hg : heapGet h a = some o) :
    a < h.length := by
  induction h generalizing a with
  | nil => exact Option.noConfusion hg
  | cons x xs ih =>
    cases a with
    | zero => exact Nat.succ_pos _
    | succ n => exact Nat.succ_lt_succ (ih hg)

theorem heapGet_heapSet_self {h : Heap} {a : Addr} (o : Obj) :
    a < h.length → heapGet (heapSet h a o) a = some o := by
  induction h generalizing a with
  | nil => intro ha; exact absurd ha (Nat.not_lt_zero _)
  | cons x xs ih =>
    intro ha
    cases a with
    | zero => rfl
    | succ n => exact ih (Nat.lt_of_succ_lt_succ ha)

theorem heapGet_heapSet_ne {h : Heap} (a b : Addr) (o : Obj) (hne : b ≠ a) :
    heapGet (heapSet h a o) b = heapGet h b := by
  induction h generalizing a b with
  | nil => rfl
  | cons x xs ih =>
    cases a with
    | zero =>
      cases b with
      | zero => exact absurd rfl hne
      | succ n => rfl
    | succ k =>
      cases b with
      | zero => rfl
      | succ n => exact ih k n (fun hc => hne (congrArg Nat.succ hc))

theorem heapGet_append {h t : Heap} {a : Addr} (ha : a < h.length) :
    heapGet (h ++ t) a = heapGet h a := by
  induction h generalizing a with
  | nil => exact absurd ha (Nat.not_lt_zero _)
  | cons x xs ih =>
    cases a with
    | zero => rfl
    | succ n => exact ih (Nat.lt_of_succ_lt_succ ha)

theorem heapGet_append_length (h : Heap) (o : Obj) :
    heapGet (h ++ [o]) h.length = some o := by
  induction h with
  | nil => rfl
  | cons x xs ih => exact ih

theorem dictGet_dictSet_self (es : List (String × Val)) (key : String) (v : Val) :
    dictGet (dictSet es key v) key = some v := by
  induction es with
  | nil => simp [dictGet, dictSet]
  | cons p rest ih =>
    obtain ⟨k, w⟩ := p
    by_cases hk : k = key
    · simp [dictGet, dictSet, hk]
    · simp [dictGet, dictSet, hk, ih]

theorem dictGet_dictSet_ne (es : List (String × Val)) {key k : String} (v : Val)
    (hne : k ≠ key) : dictGet (dictSet es key v) k = dictGet es k := by
  induction es with
  | nil => simp [dictGet, dictSet, Ne.symm hne]
  | cons p rest ih =>
    obtain ⟨k0, w⟩ := p
    by_cases hk : k0 = key
    · subst hk
      have hne' : ¬(k0 = k) := fun h => hne h.symm
      simp [dictGet, dictSet, hne']
    · by_cases hk2 : k0 = k
      · subst hk2
        simp [dictGet, dictSet, hk]
      · simp [dictGet, dictSet, hk, hk2, ih]

theorem dictGet_of_not_mem {es : List (String × Val)} {key : String}
    (hmem : key ∉ es.map Prod.fst) : dictGet es key = none := by
  induction es with
  | nil => rfl
  | cons p rest ih =>
    obtain ⟨k, w⟩ := p
    simp only [List.map_cons, List.mem_cons] at hmem
    push_neg at hmem
    simp only [dictGet, if_neg (fun h : k = key => hmem.1 h.symm)]
    exact ih hmem.2

theorem dictGet_dictPop_self {es : List (String × Val)} (key : String)
    (hwf : dictWF es) : dictGet (dictPop es key) key = none := by
  induction es with
  | nil => rfl
  | cons p rest ih =>
    obtain ⟨k, w⟩ := p
    simp only [dictWF, List.map_cons, List.nodup_cons] at hwf
    by_cases hk : k = key
    · subst hk
      simp only [dictPop, if_pos rfl]
      exact dictGet_of_not_mem hwf.1
    · simp only [dictPop, if_neg hk, dictGet, if_neg hk]
      exact ih hwf.2

theorem dictGet_dictPop_ne (es : List (String × Val)) {key k : String}
    (hne : k ≠ key) : dictGet (dictPop es key) k = dictGet es k := by
  induction es with
  | nil => rfl
  | cons p rest ih =>
    obtain ⟨k0, w⟩ := p
    by_cases hk : k0 = key
    · subst hk
      have hne' : ¬(k0 = k) := fun h => hne h.symm
      simp [dictPop, dictGet, hne']
    · by_cases hk2 : k0 = k
      · subst hk2
        simp [dictPop, dictGet, hk]
      · simp [dictPop, dictGet, hk, hk2, ih]

theorem dictSet_keys_subset {es : List (String × Val)} {key k' : String} {v : Val}
    (hmem : k' ∈ (dictSet es key v).map Prod.fst) :
    k' = key ∨ k' ∈ es.map Prod.fst := by
  induction es with
  | nil =>
    simp [dictSet] at hmem
    exact Or.inl hmem
  | cons p rest ih =>
    obtain ⟨k, w⟩ := p
    by_cases hk : k = key
    · subst hk
      simp only [dictSet, if_true, eq_self_iff_true, List.map_cons, List.mem_cons] at hmem ⊢
      exact Or.inr hmem
    · simp only [dictSet, if_neg hk, List.map_cons, List.mem_cons] at hmem ⊢
      rcases hmem with h | h
      · exact Or.inr (Or.inl h)
      · rcases ih h with h1 | h1
        · exact Or.inl h1
        · exact Or.inr (Or.inr h1)

theorem dictWF_dictSet {es : List (String × Val)} (key : String) (v : Val)
    (hwf : dictWF es) : dictWF (dictSet es key v) := by
  induction es with
  | nil => simp [dictWF, dictSet]
  | cons p rest ih =>
    obtain ⟨k, w⟩ := p
    simp only [dictWF, List.map_cons, List.nodup_cons] at hwf
    by_cases hk : k = key
    · subst hk
      simp only [dictSet, if_true, eq_self_iff_true, dictWF, List.map_cons,
        List.nodup_cons]
      exact hwf
    · simp only [dictSet, if_neg hk, dictWF, List.map_cons, List.nodup_cons]
      refine ⟨?_, ih hwf.2⟩
      intro hmem
      rcases dictSet_keys_subset hmem with h | h
      · exact hk h
      · exact hwf.1 h

/-! ## Wrapping lemmas -/

theorem Module.init_not_nil {h : Heap} {v : Val} (hv : v ≠ Val.nil) :
    Module.init h v = (h, Module.mk v) := by
  cases v with
  | nil => exact absurd rfl hv
  | str s => rfl
  | int n => rfl
  | ref a => rfl

theorem Module.init_nil (h : Heap) :
    Module.init h Val.nil = (h ++ [Obj.dict []], Module.mk (Val.ref h.length)) :=
  rfl

theorem wrapModules_cons (h : Heap) (item : Val) (rest : List Val) :
    wrapModules h (item :: rest) =
      ((wrapModules (Module.init h item).1 rest).1,
       (Module.init h item).2 :: (wrapModules (Module.init h item).1 rest).2) :=
  rfl

/-- Wrapping only extends the heap: it never mutates an existing object. -/
theorem wrapModules_append (h : Heap) (items : List Val) :
    ∃ t, (wrapModules h items).1 = h ++ t := by
  induction items generalizing h with
  | nil => exact ⟨[], by simp [wrapModules]⟩
  | cons item rest ih =>
    rw [wrapModules_cons]
    by_cases hv : item = Val.nil
    · subst hv
      rw [Module.init_nil]
      obtain ⟨t, ht⟩ := ih (h ++ [Obj.dict []])
      exact ⟨[Obj.dict []] ++ t, by rw [ht, List.append_assoc]⟩
    · rw [Module.init_not_nil hv]
      exact ih h

theorem wrapModules_length (h : Heap) (items : List Val) :
    (wrapModules h items).2.length = items.length := by
  induction items generalizing h with
  | nil => rfl
  | cons item rest ih =>
    rw [wrapModules_cons]
    simp [ih]

/-- For a raw list without `None` entries, wrapping allocates nothing and
every wrapper wraps the entry itself. -/
theorem wrapModules_nil_free (items : List Val) :
    Val.nil ∉ items → ∀ h, wrapModules h items = (h, items.map Module.mk) := by
  induction items with
  | nil => intro _ h; rfl
  | cons item rest ih =>
    intro hnf h
    have hitem : item ≠ Val.nil :=
      fun hc => hnf (by rw [hc]; exact List.mem_cons_self _ _)
    have hrest : Val.nil ∉ rest := fun hm => hnf (List.mem_cons_of_mem _ hm)
    rw [wrapModules_cons, Module.init_not_nil hitem]
    simp [ih hrest h]

/-- Per-index relation between the raw entries and their wrappers: a non-None
entry is wrapped itself, a None entry is wrapped around a fresh empty dict. -/
theorem wrapModules_get (h : Heap) (items : List Val) :
    ∀ i v mod, items.get? i = some v →
      (wrapModules h items).2.get? i = some mod →
      (v ≠ Val.nil → mod.data = v) ∧
      (v = Val.nil → ∃ b, mod.data = Val.ref b ∧
        heapGet (wrapModules h items).1 b = some (Obj.dict [])) := by
  induction items generalizing h with
  | nil =>
    intro i v mod hv
    exact absurd hv (by simp)
  | cons item rest ih =>
    intro i v mod hv hmod
    rw [wrapModules_cons] at hmod
    cases i with
    | zero =>
      cases Option.some.inj hv
      cases Option.some.inj hmod
      constructor
      · intro hne
        rw [Module.init_not_nil hne]
      · intro hnil
        subst hnil
        rw [Module.init_nil]
        refine ⟨h.length, rfl, ?_⟩
        rw [wrapModules_cons, Module.init_nil]
        obtain ⟨t, ht⟩ := wrapModules_append (h ++ [Obj.dict []]) rest
        rw [ht, heapGet_append (by simp)]
        exact heapGet_append_length h (Obj.dict [])
    | succ n =>
      have := ih (Module.init h item).1 n v mod hv hmod
      refine ⟨this.1, ?_⟩
      intro hnil
      obtain ⟨b, hb1, hb2⟩ := this.2 hnil
      refine ⟨b, hb1, ?_⟩
      rw [wrapModules_cons]
      exact hb2

/-! ## Characterization lemmas for the wrapper operations -/

/-- A manifest whose module sequences have been materialized: the raw document
dict lives at `da`, its `modules` key holds (a reference to) the raw list at
`a` with items `items`, both caches are set, and the wrapper sequence `ms` has
one wrapper per raw entry (per-index content facts are stated separately,
since a `None` raw entry is wrapped around a fresh dict rather than itself). -/
def Materialized (h : Heap) (m : Manifest) (da : Addr) (es : List (String × Val))
    (a : Addr) (items : List Val) (ms : List Module) : Prop :=
  m.data = Val.ref da ∧
  heapGet h da = some (Obj.dict es) ∧
  dictGet es MANIFEST_MODULES = some (Val.ref a) ∧
  heapGet h a = some (Obj.list items) ∧
  m._raw_modules = some a ∧
  m._modules = some ms ∧
  ms.length = items.length

theorem map_data_map_mk (items : List Val) :
    (items.map Module.mk).map Module.data = items := by
  induction items with
  | nil => rfl
  | cons x xs ih => simp [ih]

theorem materialized_ne {h : Heap} {m : Manifest} {da : Addr}
    {es : List (String × Val)} {a : Addr} {items : List Val} {ms : List Module}
    (hm : Materialized h m da es a items ms) : da ≠ a := by
  intro hda
  have h1 := hm.2.1
  have h2 := hm.2.2.2.1
  rw [hda] at h1
  rw [h1] at h2
  exact Obj.noConfusion (Option.some.inj h2)

/-- `ensure_list` on success: the dict now has the returned list address under
the key, and that address holds a list. -/
theorem ensure_list_ok {h h' : Heap} {d : Val} {key : String} {a : Addr}
    (hok : ensure_list h d key = Except.ok (h', a)) :
    ∃ da es items, d = Val.ref da ∧
      heapGet h' da = some (Obj.dict es) ∧
      dictGet es key = some (Val.ref a) ∧
      heapGet h' a = some (Obj.list items) := by
  unfold ensure_list at hok
  split at hok
  case _ da =>
    split at hok
    case _ es hda =>
      split at hok
      case _ b hget =>
        split at hok
        case _ items hb =>
          simp only [Except.ok.injEq, Prod.mk.injEq] at hok
          obtain ⟨hh, hab⟩ := hok
          subst hh hab
          exact ⟨da, es, items, rfl, hda, hget, hb⟩
        case _ hb => exact Except.noConfusion hok
      case _ v hget hne => exact Except.noConfusion hok
      case _ hget =>
        simp only [heapAlloc, Except.ok.injEq, Prod.mk.injEq] at hok
        obtain ⟨hh, hab⟩ := hok
        have hlt : da < h.length := heapGet_lt hda
        have hlen : da ≠ h.length := Nat.ne_of_lt hlt
        refine ⟨da, dictSet es key (Val.ref a), [], rfl, ?_, ?_, ?_⟩
        · rw [← hh, ← hab]
          exact heapGet_heapSet_self _ (by simpa using Nat.lt_succ_of_lt hlt)
        · exact dictGet_dictSet_self es key (Val.ref a)
        · rw [← hh, ← hab]
          rw [heapGet_heapSet_ne _ _ _ (Ne.symm hlen)]
          exact heapGet_append_length h (Obj.list [])
    case _ hda hne => exact Except.noConfusion hok
  case _ hne => exact Except.noConfusion hok

/-- `_process_modules` on success: the result heap is the wrapping heap over
the list materialized by `ensure_list`, the caches hold that list and its
in-order wrappers, the other attributes are untouched, and the result is
materialized. -/
theorem process_modules_ok {h0 h : Heap} {m0 m : Manifest}
    (hok : Manifest.process_modules h0 m0 = Except.ok (h, m)) :
    ∃ h2 a items,
      ensure_list h0 m0.data MANIFEST_MODULES = Except.ok (h2, a) ∧
      heapGet h2 a = some (Obj.list items) ∧
      h = (wrapModules h2 items).1 ∧
      m = { m0 with
            _raw_modules := some a
            _modules := some (wrapModules h2 items).2 } ∧
      ∃ da es, Materialized h m da es a items (wrapModules h2 items).2 := by
  unfold Manifest.process_modules at hok
  split at hok
  case _ e hel => exact Except.noConfusion hok
  case _ h2 a hel =>
    obtain ⟨da, es, items0, hd, hda, hget, ha0⟩ := ensure_list_ok hel
    split at hok
    case _ items hh =>
      dsimp only at hok
      simp only [Except.ok.injEq, Prod.mk.injEq] at hok
      obtain ⟨hh2, hm⟩ := hok
      obtain ⟨t, ht⟩ := wrapModules_append h2 items
      refine ⟨h2, a, items, hel, hh, hh2.symm, hm.symm, da, es,
        ?_, ?_, hget, ?_, ?_, ?_, wrapModules_length h2 items⟩
      · rw [← hm]
        exact hd
      · rw [← hh2, ht, heapGet_append (heapGet_lt hda)]
        exact hda
      · rw [← hh2, ht, heapGet_append (heapGet_lt hh)]
        exact hh
      · rw [← hm]
      · rw [← hm]
    case _ hh => exact Except.noConfusion hok

/-- On a materialized manifest, both sequence reads return the cached pair and
change nothing. -/
theorem materialized_reads {h : Heap} {m : Manifest} {da : Addr}
    {es : List (String × Val)} {a : Addr} {items : List Val} {ms : List Module}
    (hm : Materialized h m da es a items ms) :
    Manifest.raw_modules h m = Except.ok (h, m, a) ∧
    Manifest.modules h m = Except.ok (h, m, ms) := by
  obtain ⟨_, _, _, _, hraw, hmod, _⟩ := hm
  constructor
  · unfold Manifest.raw_modules
    rw [hraw]
  · unfold Manifest.modules
    rw [hmod]

/-- Extending the heap with fresh allocations preserves materialization. -/
theorem materialized_extend {h t : Heap} {m : Manifest} {da : Addr}
    {es : List (String × Val)} {a : Addr} {items : List Val} {ms : List Module}
    (hm : Materialized h m da es a items ms) :
    Materialized (h ++ t) m da es a items ms := by
  obtain ⟨hd, hda, hget, ha, hraw, hmod, hlen⟩ := hm
  exact ⟨hd, by rw [heapGet_append (heapGet_lt hda)]; exact hda, hget,
    by rw [heapGet_append (heapGet_lt ha)]; exact ha, hraw, hmod, hlen⟩

theorem pyListInsert_ofNat {α : Type} (l : List α) (p : Nat) (v : α) :
    pyListInsert l (p : Int) v = l.take p ++ v :: l.drop p := by
  have h0 : ¬((p : Int) < 0) := by omega
  simp [pyListInsert, h0]

/-- `add_module` on a materialized manifest: both sequences receive the module
at the same index, all other elements keep their order, the result is again
materialized, and appending is inserting at the end. -/
theorem add_module_mat {h : Heap} {m : Manifest} {da : Addr}
    {es : List (String × Val)} {a : Addr} {items : List Val} {ms : List Module}
    (hm : Materialized h m da es a items ms) (mod : Module) :
    (∀ p : Nat,
      Manifest.add_module h m mod (some ((p : Nat) : Int)) =
        Except.ok (heapSet h a (Obj.list (items.take p ++ mod.data :: items.drop p)),
          { m with _modules := some (ms.take p ++ mod :: ms.drop p) }) ∧
      Materialized
        (heapSet h a (Obj.list (items.take p ++ mod.data :: items.drop p)))
        { m with _modules := some (ms.take p ++ mod :: ms.drop p) }
        da es a (items.take p ++ mod.data :: items.drop p)
        (ms.take p ++ mod :: ms.drop p)) ∧
    Manifest.add_module h m mod none =
      Manifest.add_module h m mod (some ((items.length : Nat) : Int)) := by
  have hne := materialized_ne hm
  obtain ⟨hd, hda, hget, ha, hraw, hmod, hlen⟩ := hm
  have hreads := materialized_reads ⟨hd, hda, hget, ha, hraw, hmod, hlen⟩
  have hmat : ∀ newItems newMs, newMs.length = newItems.length →
      Materialized (heapSet h a (Obj.list newItems))
        { m with _modules := some newMs } da es a newItems newMs := by
    intro newItems newMs hlen2
    refine ⟨hd, ?_, hget, ?_, hraw, rfl, hlen2⟩
    · rw [heapGet_heapSet_ne _ _ _ hne]
      exact hda
    · exact heapGet_heapSet_self _ (heapGet_lt ha)
  constructor
  · intro p
    constructor
    · simp only [Manifest.add_module, hreads.1, hreads.2, ha, pyListInsert_ofNat]
    · refine hmat _ _ ?_
      simp only [List.length_append, List.length_cons, List.length_take,
        List.length_drop, hlen]
  · simp only [Manifest.add_module, hreads.1, hreads.2, ha, pyListInsert_ofNat]
    rw [List.take_length, List.drop_length, ← hlen, List.take_length, List.drop_length]

/-- Any error of a module `name` read is caught by the `except TypeError`
handlers (the read only ever signals a type error or a missing field). -/
theorem name_error_catchable {h : Heap} {x : Module} {e : Err}
    (he : Module.name h x = Except.error e) : e.catchesTypeError = true := by
  unfold Module.name ensure_string at he
  split at he
  case _ da =>
    split at he
    case _ es hda =>
      split at he
      case _ s hget => exact Except.noConfusion he
      case _ v hget hne =>
        cases he
        rfl
      case _ hget =>
        split at he
        case _ s => exact Except.noConfusion he
        case _ =>
          cases he
          rfl
    case _ hda hne =>
      cases he
      rfl
  case _ hne =>
    cases he
    rfl

/-- `findFirst` never propagates an error: a per-module name failure is
treated as "no match". -/
theorem findFirst_total (h : Heap) (name : String) (ms : List Module) :
    ∃ r, findFirst h name ms = Except.ok r := by
  induction ms with
  | nil => exact ⟨none, rfl⟩
  | cons x rest ih =>
    unfold findFirst
    match hn : Module.name h x with
    | Except.ok n =>
      by_cases heq : n = name
      · exact ⟨some x, by simp [heq]⟩
      · obtain ⟨r, hr⟩ := ih
        exact ⟨r, by simp [heq, hr]⟩
    | Except.error e =>
      obtain ⟨r, hr⟩ := ih
      exact ⟨r, by simp [name_error_catchable hn, hr]⟩

/-- A successful `init_module` read leaves the wrapper memoized. -/
theorem init_module_caches {h h1 : Heap} {m m1 : Manifest} {mod : Module}
    (hok : Manifest.init_module h m = Except.ok (h1, m1, mod)) :
    m1._init_module = some mod := by
  unfold Manifest.init_module at hok
  split at hok
  case _ x hx =>
    cases hok
    exact hx
  case _ hx =>
    split at hok
    case _ e hf => exact Except.noConfusion hok
    case _ hf mf md hfind =>
      cases hok
      rfl
    case _ hf mf hfind =>
      dsimp only at hok
      split at hok
      case _ e hadd => exact Except.noConfusion hok
      case _ h2 m2 hadd =>
        cases hok
        rfl

/-- The module caches of a manifest are coherent: either nothing has been
materialized yet, or the manifest is materialized.  Every state reachable
through the wrapper API satisfies this (`_process_modules` always sets both
caches together). -/
def cachesOk (h : Heap) (m : Manifest) : Prop :=
  (m._raw_modules = none ∧ m._modules = none) ∨
  ∃ da es a items ms, Materialized h m da es a items ms

/-- A successful `modules` read on a coherent manifest yields a materialized
manifest whose cached wrapper list is the returned one; the memoized special
modules are untouched. -/
theorem modules_materialized {h : Heap} {m : Manifest} {h2 : Heap} {m2 : Manifest}
    {ms : List Module} (hc : cachesOk h m)
    (hok : Manifest.modules h m = Except.ok (h2, m2, ms)) :
    (∃ da es a items, Materialized h2 m2 da es a items ms) ∧
      m2._init_module = m._init_module ∧ m2._finish_module = m._finish_module := by
  unfold Manifest.modules at hok
  split at hok
  case _ ms0 hmm =>
    cases hok
    rcases hc with ⟨hrm, hmod⟩ | ⟨da, es, a, items, ms1, hmat⟩
    · rw [hmod] at hmm
      exact Option.noConfusion hmm
    · have hms1 := hmat.2.2.2.2.2.1
      rw [hmm] at hms1
      cases Option.some.inj hms1
      exact ⟨⟨da, es, a, items, hmat⟩, rfl, rfl⟩
  case _ hmm =>
    split at hok
    case _ e hp => exact Except.noConfusion hok
    case _ hp mp hproc =>
      split at hok
      case _ ms1 hmp =>
        cases hok
        obtain ⟨h3, a, items, hel, hha, hh, hm2, da, es, hmat⟩ :=
          process_modules_ok hproc
        have hms1 := hmat.2.2.2.2.2.1
        rw [hmp] at hms1
        cases Option.some.inj hms1
        exact ⟨⟨da, es, a, items, hmat⟩, by rw [hm2], by rw [hm2]⟩
      case _ hmp => exact Except.noConfusion hok

/-- A successful `find_module` factors through a successful `modules` read
followed by the scan. -/
theorem find_module_char {h : Heap} {m : Manifest} {name : String} {h2 : Heap}
    {m2 : Manifest} {r : Option Module}
    (hok : Manifest.find_module h m name = Except.ok (h2, m2, r)) :
    ∃ ms, Manifest.modules h m = Except.ok (h2, m2, ms) ∧
      findFirst h2 name ms = Except.ok r := by
  unfold Manifest.find_module at hok
  split at hok
  case _ e hm => exact Except.noConfusion hok
  case _ hm2 mm ms hm =>
    split at hok
    case _ e hf => exact Except.noConfusion hok
    case _ r2 hf =>
      cases hok
      exact ⟨ms, hm, hf⟩

/-- A module found by the scan is one of the scanned modules. -/
theorem findFirst_mem {h : Heap} {name : String} {ms : List Module} {mod : Module}
    (hok : findFirst h name ms = Except.ok (some mod)) : mod ∈ ms := by
  induction ms with
  | nil =>
    unfold findFirst at hok
    exact Option.noConfusion (Except.ok.inj hok)
  | cons x rest ih =>
    unfold findFirst at hok
    split at hok
    case _ n hn =>
      split at hok
      case _ heq =>
        cases Option.some.inj (Except.ok.inj hok)
        exact List.mem_cons_self _ _
      case _ heq => exact List.mem_cons_of_mem x (ih hok)
    case _ e hn =>
      split at hok
      case _ hcat => exact List.mem_cons_of_mem x (ih hok)
      case _ hcat => exact Except.noConfusion hok

/-- A successful `finish_module` read leaves the wrapper memoized. -/
theorem finish_module_caches {h h1 : Heap} {m m1 : Manifest} {mod : Module}
    (hok : Manifest.finish_module h m = Except.ok (h1, m1, mod)) :
    m1._finish_module = some mod := by
  unfold Manifest.finish_module at hok
  split at hok
  case _ x hx =>
    cases hok
    exact hx
  case _ hx =>
    split at hok
    case _ e hf => exact Except.noConfusion hok
    case _ hf mf md hfind =>
      cases hok
      rfl
    case _ hf mf hfind =>
      dsimp only at hok
      split at hok
      case _ e hadd => exact Except.noConfusion hok
      case _ h2 m2 hadd =>
        cases hok
        rfl

/-! ## Claims -/

/-- The lock-step property of a materialized manifest state: the cached raw
modules list is the very list stored under the `modules` key of the raw
document; the wrapper sequence has exactly one wrapper per raw entry, and at
every index whose raw entry is not `None` the wrapper's data is that raw entry
itself, while a `None` raw entry is wrapped around a fresh empty mapping (the
raw entry stays `None`); both sequences are cached as a pair and later reads
return the same pair without changing anything; `add_module` at a position
inserts into both sequences at that index preserving the order of all other
elements; and appending is inserting at the end. -/
def lockstepAfter (h : Heap) (m : Manifest) : Prop :=
  ∃ da es a items ms,
    m.data = Val.ref da ∧
    heapGet h da = some (Obj.dict es) ∧
    dictGet es MANIFEST_MODULES = some (Val.ref a) ∧
    m._raw_modules = some a ∧
    heapGet h a = some (Obj.list items) ∧
    m._modules = some ms ∧
    ms.length = items.length ∧
    (∀ i v mod, items.get? i = some v → ms.get? i = some mod →
      v ≠ Val.nil → mod.data = v) ∧
    (∀ i mod, items.get? i = some Val.nil → ms.get? i = some mod →
      ∃ b, mod.data = Val.ref b ∧ heapGet h b = some (Obj.dict [])) ∧
    Manifest.raw_modules h m = Except.ok (h, m, a) ∧
    Manifest.modules h m = Except.ok (h, m, ms) ∧
    (∀ mod (p : Nat),
      Manifest.add_module h m mod (some ((p : Nat) : Int)) =
        Except.ok
          (heapSet h a (Obj.list (items.take p ++ mod.data :: items.drop p)),
           { m with _modules := some (ms.take p ++ mod :: ms.drop p) })) ∧
    (∀ mod, Manifest.add_module h m mod none =
      Manifest.add_module h m mod (some ((items.length : Nat) : Int)))

/-- C1 as amended: once the module sequences are materialized, `raw_modules`
is the very list stored under the `modules` key of the raw document; for every
index `i` whose raw entry is not `None`, `modules[i].data` is `raw_modules[i]`
(a `None` raw entry is wrapped around a fresh empty mapping instead, by
`Module.__init__`'s defaulting, while the raw entry stays `None`); both
sequences are cached as a pair so later reads return the same pair; and
`add_module(module, position)` inserts `module.data` into the raw sequence and
`module` into the wrapper sequence at that same index, preserving the order of
all other elements, with `position` omitted equivalent to inserting at the
end. -/
theorem add_module_lockstep (h0 h : Heap) (m0 m : Manifest)
    (hproc : Manifest.process_modules h0 m0 = Except.ok (h, m)) :
    lockstepAfter h m := by
  obtain ⟨h2, a, items, hel, hha, hh, hm2, da, es, hmat⟩ := process_modules_ok hproc
  obtain ⟨hd, hda, hget, ha, hraw, hmod, hlen⟩ := hmat
  have hmat' : Materialized h m da es a items (wrapModules h2 items).2 :=
    ⟨hd, hda, hget, ha, hraw, hmod, hlen⟩
  have hreads := materialized_reads hmat'
  have hadd := add_module_mat hmat'
  refine ⟨da, es, a, items, (wrapModules h2 items).2,
    hd, hda, hget, hraw, ha, hmod, hlen, ?_, ?_, hreads.1, hreads.2, ?_, ?_⟩
  · intro i v mod hv hmod2 hne
    exact (wrapModules_get h2 items i v mod hv hmod2).1 hne
  · intro i mod hv hmod2
    obtain ⟨b, hb1, hb2⟩ := (wrapModules_get h2 items i Val.nil mod hv hmod2).2 rfl
    refine ⟨b, hb1, ?_⟩
    rw [hh]
    exact hb2
  · intro mod p
    exact ((hadd mod).1 p).1
  · intro mod
    exact (hadd mod).2

/-- C1 as frozen is false at a raw modules list containing `None`: after
materialization, the raw sequence still holds `None` at index 0, but the
wrapper at index 0 wraps the fresh dict `Module.__init__` allocated (address
2), so `modules[0].data` is not `raw_modules[0]`. -/
theorem add_module_lockstep_counterexample :
    Manifest.process_modules
        [Obj.dict [(MANIFEST_MODULES, Val.ref 1)], Obj.list [Val.nil]]
        ⟨Val.ref 0, none, none, none, none, none⟩ =
      Except.ok
        ([Obj.dict [(MANIFEST_MODULES, Val.ref 1)], Obj.list [Val.nil],
          Obj.dict []],
         ⟨Val.ref 0, none, some [Module.mk (Val.ref 2)], some 1, none, none⟩) ∧
    heapGet [Obj.dict [(MANIFEST_MODULES, Val.ref 1)], Obj.list [Val.nil],
        Obj.dict []] 1 = some (Obj.list [Val.nil]) ∧
    (([Module.mk (Val.ref 2)] : List Module).get? 0).map Module.data ≠
      ([Val.nil] : List Val).get? 0 :=
  ⟨rfl, rfl, by decide⟩

/-- A concrete raw document whose module list holds a `None` entry followed by
an ordinary module, for exercising the amended C1. -/
def fixture1_heap : Heap :=
  [Obj.dict [(MANIFEST_MODULES, Val.ref 1)], Obj.list [Val.nil, Val.ref 2],
   Obj.dict [(MODULE_NAME, Val.str "lib")]]

/-- A freshly constructed wrapper over `fixture1_heap`. -/
def fixture1_m0 : Manifest := ⟨Val.ref 0, none, none, none, none, none⟩

/-- The heap after materializing `fixture1_heap`'s modules: the `None` entry
got a fresh empty dict (address 3) for its wrapper. -/
def fixture1_heapB : Heap :=
  [Obj.dict [(MANIFEST_MODULES, Val.ref 1)], Obj.list [Val.nil, Val.ref 2],
   Obj.dict [(MODULE_NAME, Val.str "lib")], Obj.dict []]

/-- The wrapper over `fixture1_heap` after materializing the modules. -/
def fixture1_m1 : Manifest :=
  ⟨Val.ref 0, none, some [Module.mk (Val.ref 3), Module.mk (Val.ref 2)],
   some 1, none, none⟩

/-- Witness for the amended C1: the lock-step property holds of the concrete
materialized manifest, including the `None` entry's fresh-dict wrapper. -/
theorem add_module_lockstep_witness : lockstepAfter fixture1_heapB fixture1_m1 :=
  add_module_lockstep fixture1_heap fixture1_heapB fixture1_m0 fixture1_m1 rfl

/-- C2: `init_module` and `finish_module` are memoized and idempotent:
requesting either twice returns the same wrapper both times with nothing else
inserted or changed; if no module of the special name existed, the
auto-created init module's raw mapping becomes the first element of the raw
modules sequence, and the auto-created finish module's raw mapping becomes the
last element, regardless of how many modules existed before. -/
theorem init_finish_idempotent :
    (∀ h m h1 m1 mod, Manifest.init_module h m = Except.ok (h1, m1, mod) →
      Manifest.init_module h1 m1 = Except.ok (h1, m1, mod)) ∧
    (∀ h m h2 m2 mod, cachesOk h m → m._init_module = none →
      (∃ hf mf, Manifest.find_module h m INIT_MODULE_NAME =
        Except.ok (hf, mf, none)) →
      Manifest.init_module h m = Except.ok (h2, m2, mod) →
      ∃ a items, m2._raw_modules = some a ∧
        heapGet h2 a = some (Obj.list items) ∧
        items.head? = some mod.data) ∧
    (∀ h m h1 m1 mod, Manifest.finish_module h m = Except.ok (h1, m1, mod) →
      Manifest.finish_module h1 m1 = Except.ok (h1, m1, mod)) ∧
    (∀ h m h2 m2 mod, cachesOk h m → m._finish_module = none →
      (∃ hf mf, Manifest.find_module h m FINISH_MODULE_NAME =
        Except.ok (hf, mf, none)) →
      Manifest.finish_module h m = Except.ok (h2, m2, mod) →
      ∃ a items, m2._raw_modules = some a ∧
        heapGet h2 a = some (Obj.list items) ∧
        items.getLast? = some mod.data) := by
  refine ⟨?_, ?_, ?_, ?_⟩
  · intro h m h1 m1 mod hok
    unfold Manifest.init_module
    rw [init_module_caches hok]
  · intro h m h2 m2 mod hc hmi hfind hok
    obtain ⟨hf, mf, hfm⟩ := hfind
    obtain ⟨ms, hmods, hff⟩ := find_module_char hfm
    obtain ⟨⟨da, es, a, items, hmat⟩, _, _⟩ := modules_materialized hc hmods
    have hmat2 : Materialized
        (hf ++ [Obj.dict (dictSet [] MODULE_NAME (Val.str INIT_MODULE_NAME))])
        mf da es a items ms := materialized_extend hmat
    have hadd :=
      ((add_module_mat hmat2 (Module.mk (Val.ref hf.length))).1 0).1
    simp only [Nat.cast_zero, List.take_zero, List.drop_zero,
      List.nil_append] at hadd
    unfold Manifest.init_module at hok
    simp only [hmi, hfm, Module.new, heapAlloc, hadd] at hok
    obtain ⟨rfl, rfl, rfl⟩ := hok
    refine ⟨a, Val.ref hf.length :: items, ?_, ?_, ?_⟩
    · exact hmat.2.2.2.2.1
    · exact heapGet_heapSet_self _ (heapGet_lt hmat2.2.2.2.1)
    · rfl
  · intro h m h1 m1 mod hok
    unfold Manifest.finish_module
    rw [finish_module_caches hok]
  · intro h m h2 m2 mod hc hmf hfind hok
    obtain ⟨hf, mf, hfm⟩ := hfind
    obtain ⟨ms, hmods, hff⟩ := find_module_char hfm
    obtain ⟨⟨da, es, a, items, hmat⟩, _, _⟩ := modules_materialized hc hmods
    have hmat2 : Materialized
        (hf ++ [Obj.dict (dictSet [] MODULE_NAME (Val.str FINISH_MODULE_NAME))])
        mf da es a items ms := materialized_extend hmat
    have hadd := (add_module_mat hmat2 (Module.mk (Val.ref hf.length))).2
    have hadd2 :=
      ((add_module_mat hmat2 (Module.mk (Val.ref hf.length))).1 items.length).1
    rw [hadd2, List.take_length, List.drop_length] at hadd
    unfold Manifest.finish_module at hok
    simp only [hmf, hfm, Module.new, heapAlloc, hadd] at hok
    obtain ⟨rfl, rfl, rfl⟩ := hok
    refine ⟨a, items ++ [Val.ref hf.length], ?_, ?_, ?_⟩
    · exact hmat.2.2.2.2.1
    · exact heapGet_heapSet_self _ (heapGet_lt hmat2.2.2.2.1)
    · simp [List.getLast?_concat]

/-- The state after `init_module` auto-creates the init module over an
initially empty raw document. -/
def fixture2_heap2 : Heap :=
  [Obj.dict [(MANIFEST_MODULES, Val.ref 1)], Obj.list [Val.ref 2],
   Obj.dict [(MODULE_NAME, Val.str INIT_MODULE_NAME)]]

/-- The manifest paired with `fixture2_heap2`. -/
def fixture2_m2 : Manifest :=
  ⟨Val.ref 0, none, some [Module.mk (Val.ref 2)], some 1,
   some (Module.mk (Val.ref 2)), none⟩

/-- The state after `finish_module` auto-creates the finish module over an
initially empty raw document. -/
def fixture2_heap3 : Heap :=
  [Obj.dict [(MANIFEST_MODULES, Val.ref 1)], Obj.list [Val.ref 2],
   Obj.dict [(MODULE_NAME, Val.str FINISH_MODULE_NAME)]]

/-- The manifest paired with `fixture2_heap3`. -/
def fixture2_m3 : Manifest :=
  ⟨Val.ref 0, none, some [Module.mk (Val.ref 2)], some 1, none,
   some (Module.mk (Val.ref 2))⟩

/-- Witness for C2 at a concrete manifest with no modules: the second
`init_module` read returns the same triple, the created init module heads the
raw sequence, and symmetrically for `finish_module`. -/
theorem init_finish_idempotent_witness :
    (Manifest.init_module fixture2_heap2 fixture2_m2 =
      Except.ok (fixture2_heap2, fixture2_m2, Module.mk (Val.ref 2))) ∧
    (∃ a items, fixture2_m2._raw_modules = some a ∧
      heapGet fixture2_heap2 a = some (Obj.list items) ∧
      items.head? = some (Module.mk (Val.ref 2)).data) ∧
    (Manifest.finish_module fixture2_heap3 fixture2_m3 =
      Except.ok (fixture2_heap3, fixture2_m3, Module.mk (Val.ref 2))) ∧
    (∃ a items, fixture2_m3._raw_modules = some a ∧
      heapGet fixture2_heap3 a = some (Obj.list items) ∧
      items.getLast? = some (Module.mk (Val.ref 2)).data) :=
  ⟨init_finish_idempotent.1 [Obj.dict []] ⟨Val.ref 0, none, none, none, none, none⟩
      fixture2_heap2 fixture2_m2 (Module.mk (Val.ref 2)) rfl,
   init_finish_idempotent.2.1 [Obj.dict []] ⟨Val.ref 0, none, none, none, none, none⟩
      fixture2_heap2 fixture2_m2 (Module.mk (Val.ref 2))
      (Or.inl ⟨rfl, rfl⟩) rfl ⟨_, _, rfl⟩ rfl,
   init_finish_idempotent.2.2.1 [Obj.dict []] ⟨Val.ref 0, none, none, none, none, none⟩
      fixture2_heap3 fixture2_m3 (Module.mk (Val.ref 2)) rfl,
   init_finish_idempotent.2.2.2 [Obj.dict []] ⟨Val.ref 0, none, none, none, none, none⟩
      fixture2_heap3 fixture2_m3 (Module.mk (Val.ref 2))
      (Or.inl ⟨rfl, rfl⟩) rfl ⟨_, _, rfl⟩ rfl⟩

/-- C9: if the raw document's module list already contains a module named
`init` at some position (including a position after the first), the first
`init_module` read returns the wrapper of that existing module in place and
mutates nothing: the heap is at most extended by the fresh empty mappings that
`Module.__init__` allocates for `None` entries during materialization — no
existing object, in particular neither the raw document nor the raw module
sequence, changes in any way — and when no raw entry is `None` the heap is
exactly unchanged; the wrapper sequence is exactly the in-order wrapping of
the existing raw entries with equal length (nothing inserted, nothing moved),
and the returned module is one of those existing wrappers; the same holds for
an existing `finish` module not at the last position. -/
theorem find_existing_no_mutation (h : Heap) (m : Manifest) (da a : Addr)
    (es : List (String × Val)) (items : List Val)
    (hdata : m.data = Val.ref da) (hrm : m._raw_modules = none)
    (hm : m._modules = none)
    (hda : heapGet h da = some (Obj.dict es))
    (hmods : dictGet es MANIFEST_MODULES = some (Val.ref a))
    (ha : heapGet h a = some (Obj.list items)) :
    (∀ mod, m._init_module = none →
      findFirst (wrapModules h items).1 INIT_MODULE_NAME
          (wrapModules h items).2 = Except.ok (some mod) →
      Manifest.init_module h m =
        Except.ok ((wrapModules h items).1,
          { m with
            _raw_modules := some a
            _modules := some (wrapModules h items).2
            _init_module := some mod },
          mod) ∧
      mod ∈ (wrapModules h items).2 ∧
      (wrapModules h items).2.length = items.length ∧
      (∃ t, (wrapModules h items).1 = h ++ t) ∧
      heapGet (wrapModules h items).1 a = some (Obj.list items) ∧
      (Val.nil ∉ items → (wrapModules h items).1 = h)) ∧
    (∀ mod, m._finish_module = none →
      findFirst (wrapModules h items).1 FINISH_MODULE_NAME
          (wrapModules h items).2 = Except.ok (some mod) →
      Manifest.finish_module h m =
        Except.ok ((wrapModules h items).1,
          { m with
            _raw_modules := some a
            _modules := some (wrapModules h items).2
            _finish_module := some mod },
          mod) ∧
      mod ∈ (wrapModules h items).2 ∧
      (wrapModules h items).2.length = items.length ∧
      (∃ t, (wrapModules h items).1 = h ++ t) ∧
      heapGet (wrapModules h items).1 a = some (Obj.list items) ∧
      (Val.nil ∉ items → (wrapModules h items).1 = h)) := by
  obtain ⟨t, ht⟩ := wrapModules_append h items
  have hframe : heapGet (wrapModules h items).1 a = some (Obj.list items) := by
    rw [ht, heapGet_append (heapGet_lt ha)]
    exact ha
  have hproc : Manifest.process_modules h m =
      Except.ok ((wrapModules h items).1,
        { m with
          _raw_modules := some a
          _modules := some (wrapModules h items).2 }) := by
    unfold Manifest.process_modules ensure_list
    rw [hdata]
    simp only [hda, hmods, ha]
  have hmodules : Manifest.modules h m =
      Except.ok ((wrapModules h items).1,
        { m with
          _raw_modules := some a
          _modules := some (wrapModules h items).2 },
        (wrapModules h items).2) := by
    unfold Manifest.modules
    rw [hm]
    simp only [hproc]
  constructor
  · intro mod hmi hfind
    have hfm : Manifest.find_module h m INIT_MODULE_NAME =
        Except.ok ((wrapModules h items).1,
          { m with
            _raw_modules := some a
            _modules := some (wrapModules h items).2 },
          some mod) := by
      unfold Manifest.find_module
      simp only [hmodules, hfind]
    refine ⟨?_, findFirst_mem hfind, wrapModules_length h items, ⟨t, ht⟩,
      hframe, fun hnf => by rw [wrapModules_nil_free items hnf h]⟩
    unfold Manifest.init_module
    rw [hmi]
    simp only [hfm]
  · intro mod hmf hfind
    have hfm : Manifest.find_module h m FINISH_MODULE_NAME =
        Except.ok ((wrapModules h items).1,
          { m with
            _raw_modules := some a
            _modules := some (wrapModules h items).2 },
          some mod) := by
      unfold Manifest.find_module
      simp only [hmodules, hfind]
    refine ⟨?_, findFirst_mem hfind, wrapModules_length h items, ⟨t, ht⟩,
      hframe, fun hnf => by rw [wrapModules_nil_free items hnf h]⟩
    unfold Manifest.finish_module
    rw [hmf]
    simp only [hfm]

/-- A raw document whose module list already holds `finish` (first), `init`
(second) and an ordinary module (last), for exercising C9. -/
def fixture9_heap : Heap :=
  [Obj.dict [(MANIFEST_MODULES, Val.ref 1)],
   Obj.list [Val.ref 2, Val.ref 3, Val.ref 4],
   Obj.dict [(MODULE_NAME, Val.str FINISH_MODULE_NAME)],
   Obj.dict [(MODULE_NAME, Val.str INIT_MODULE_NAME)],
   Obj.dict [(MODULE_NAME, Val.str "lib")]]

/-- Witness for C9: with `init` at position 1 and `finish` at position 0
(not the last position), both reads return the existing wrappers with the
heap exactly unchanged (the raw list has no `None` entries). -/
theorem find_existing_no_mutation_witness :
    (Manifest.init_module fixture9_heap ⟨Val.ref 0, none, none, none, none, none⟩ =
      Except.ok (fixture9_heap,
        ⟨Val.ref 0, none,
         some [Module.mk (Val.ref 2), Module.mk (Val.ref 3), Module.mk (Val.ref 4)],
         some 1, some (Module.mk (Val.ref 3)), none⟩,
        Module.mk (Val.ref 3)) ∧
      Module.mk (Val.ref 3) ∈
        [Module.mk (Val.ref 2), Module.mk (Val.ref 3), Module.mk (Val.ref 4)] ∧
      ([Module.mk (Val.ref 2), Module.mk (Val.ref 3),
        Module.mk (Val.ref 4)] : List Module).length =
        ([Val.ref 2, Val.ref 3, Val.ref 4] : List Val).length ∧
      (∃ t, fixture9_heap = fixture9_heap ++ t) ∧
      heapGet fixture9_heap 1 =
        some (Obj.list [Val.ref 2, Val.ref 3, Val.ref 4]) ∧
      (Val.nil ∉ ([Val.ref 2, Val.ref 3, Val.ref 4] : List Val) →
        fixture9_heap = fixture9_heap)) ∧
    (Manifest.finish_module fixture9_heap ⟨Val.ref 0, none, none, none, none, none⟩ =
      Except.ok (fixture9_heap,
        ⟨Val.ref 0, none,
         some [Module.mk (Val.ref 2), Module.mk (Val.ref 3), Module.mk (Val.ref 4)],
         some 1, none, some (Module.mk (Val.ref 2))⟩,
        Module.mk (Val.ref 2)) ∧
      Module.mk (Val.ref 2) ∈
        [Module.mk (Val.ref 2), Module.mk (Val.ref 3), Module.mk (Val.ref 4)] ∧
      ([Module.mk (Val.ref 2), Module.mk (Val.ref 3),
        Module.mk (Val.ref 4)] : List Module).length =
        ([Val.ref 2, Val.ref 3, Val.ref 4] : List Val).length ∧
      (∃ t, fixture9_heap = fixture9_heap ++ t) ∧
      heapGet fixture9_heap 1 =
        some (Obj.list [Val.ref 2, Val.ref 3, Val.ref 4]) ∧
      (Val.nil ∉ ([Val.ref 2, Val.ref 3, Val.ref 4] : List Val) →
        fixture9_heap = fixture9_heap)) :=
  ⟨(find_existing_no_mutation fixture9_heap ⟨Val.ref 0, none, none, none, none, none⟩
      0 1 [(MANIFEST_MODULES, Val.ref 1)] [Val.ref 2, Val.ref 3, Val.ref 4]
      rfl rfl rfl rfl rfl rfl).1 (Module.mk (Val.ref 3)) rfl rfl,
   (find_existing_no_mutation fixture9_heap ⟨Val.ref 0, none, none, none, none, none⟩
      0 1 [(MANIFEST_MODULES, Val.ref 1)] [Val.ref 2, Val.ref 3, Val.ref 4]
      rfl rfl rfl rfl rfl rfl).2 (Module.mk (Val.ref 2)) rfl rfl⟩

/-- C3: reading `id` on a manifest whose raw mapping holds only the legacy
key `app-id` with a valid string returns that string; and reading `id` on a
mapping whose primary key `id` holds a non-string value, with no legacy key
present, raises the type error of the primary key (the original primary-key
error, not the secondary one). -/
theorem id_legacy_fallback (h : Heap) (m : Manifest) (da : Addr)
    (es : List (String × Val))
    (hdata : m.data = Val.ref da) (hid : m._id = none)
    (hda : heapGet h da = some (Obj.dict es)) :
    (∀ s, dictGet es MANIFEST_ID = none →
      dictGet es MANIFEST_APP_ID = some (Val.str s) →
      Manifest.id h m = Except.ok ({ m with _id := some s }, s)) ∧
    (∀ v, dictGet es MANIFEST_ID = some v → (∀ t, v ≠ Val.str t) →
      dictGet es MANIFEST_APP_ID = none →
      Manifest.id h m = Except.error (Err.typeError MANIFEST_ID)) := by
  constructor
  · intro s h1 h2
    unfold Manifest.id
    rw [hid]
    unfold Manifest.id_lookup ensure_string
    rw [hdata]
    simp only [hda, h1, h2, Err.catchesTypeError, eq_self_iff_true, if_true]
  · intro v h1 hv h2
    have hv1 : ensure_string h m.data MANIFEST_ID none =
        Except.error (Err.typeError MANIFEST_ID) := by
      unfold ensure_string
      rw [hdata]
      simp only [hda, h1]
    have hv2 : ensure_string h m.data MANIFEST_APP_ID none =
        Except.error (Err.missingField MANIFEST_APP_ID) := by
      unfold ensure_string
      rw [hdata]
      simp only [hda, h2]
    unfold Manifest.id
    rw [hid]
    unfold Manifest.id_lookup
    simp only [hv1, hv2, Err.catchesTypeError, eq_self_iff_true, if_true]

/-- C4: for every raw mapping containing neither the primary key `id` nor the
legacy key `app-id`, reading `id` raises the missing-field error, which is a
different error kind from any type error. -/
theorem id_missing_distinct (h : Heap) (m : Manifest) (da : Addr)
    (es : List (String × Val))
    (hdata : m.data = Val.ref da) (hid : m._id = none)
    (hda : heapGet h da = some (Obj.dict es))
    (h1 : dictGet es MANIFEST_ID = none)
    (h2 : dictGet es MANIFEST_APP_ID = none) :
    Manifest.id h m = Except.error (Err.missingField MANIFEST_ID) ∧
    (∀ d, Err.missingField MANIFEST_ID ≠ Err.typeError d) := by
  constructor
  · unfold Manifest.id
    rw [hid]
    unfold Manifest.id_lookup ensure_string
    rw [hdata]
    simp only [hda, h1, h2, Err.catchesTypeError, eq_self_iff_true, if_true]
  · intro d hne
    exact Err.noConfusion hne

/-- C5: for every raw mapping in which both id-bearing keys are present,
construction fails with the conflicting-key error immediately; and this is the
only construction-time validation — any mapping without both keys (whatever
else it contains) constructs successfully with all caches empty. -/
theorem construction_validation (h : Heap) (da : Addr)
    (es : List (String × Val))
    (hda : heapGet h da = some (Obj.dict es)) :
    ((dictGet es MANIFEST_ID).isSome → (dictGet es MANIFEST_APP_ID).isSome →
      Manifest.init h (some (Val.ref da)) =
        Except.error (Err.conflictingKey MANIFEST_ID MANIFEST_APP_ID)) ∧
    (¬((dictGet es MANIFEST_ID).isSome = true ∧
        (dictGet es MANIFEST_APP_ID).isSome = true) →
      Manifest.init h (some (Val.ref da)) =
        Except.ok (h, ⟨Val.ref da, none, none, none, none, none⟩)) := by
  constructor
  · intro h1 h2
    unfold Manifest.init
    simp only [hda]
    rw [if_pos ⟨h1, h2⟩]
  · intro hn
    unfold Manifest.init
    simp only [hda]
    rw [if_neg hn]

/-- Witness for C3: a document holding only the legacy key yields its string;
a document with a non-string primary key and no legacy key yields the primary
type error. -/
theorem id_legacy_fallback_witness :
    Manifest.id [Obj.dict [(MANIFEST_APP_ID, Val.str "x")]]
        ⟨Val.ref 0, none, none, none, none, none⟩ =
      Except.ok (⟨Val.ref 0, some "x", none, none, none, none⟩, "x") ∧
    Manifest.id [Obj.dict [(MANIFEST_ID, Val.int 3)]]
        ⟨Val.ref 0, none, none, none, none, none⟩ =
      Except.error (Err.typeError MANIFEST_ID) :=
  ⟨(id_legacy_fallback [Obj.dict [(MANIFEST_APP_ID, Val.str "x")]]
      ⟨Val.ref 0, none, none, none, none, none⟩ 0
      [(MANIFEST_APP_ID, Val.str "x")] rfl rfl rfl).1 "x" rfl rfl,
   (id_legacy_fallback [Obj.dict [(MANIFEST_ID, Val.int 3)]]
      ⟨Val.ref 0, none, none, none, none, none⟩ 0
      [(MANIFEST_ID, Val.int 3)] rfl rfl rfl).2 (Val.int 3) rfl
      (fun t ht => Val.noConfusion ht) rfl⟩

/-- Witness for C4: a document with neither id key yields the missing-field
error. -/
theorem id_missing_distinct_witness :
    Manifest.id [Obj.dict [(MANIFEST_BRANCH, Val.str "master")]]
        ⟨Val.ref 0, none, none, none, none, none⟩ =
      Except.error (Err.missingField MANIFEST_ID) ∧
    (∀ d, Err.missingField MANIFEST_ID ≠ Err.typeError d) :=
  id_missing_distinct [Obj.dict [(MANIFEST_BRANCH, Val.str "master")]]
    ⟨Val.ref 0, none, none, none, none, none⟩ 0
    [(MANIFEST_BRANCH, Val.str "master")] rfl rfl rfl rfl rfl

/-- Witness for C5: both keys present fails; a document with an invalid other
field (branch holding an integer) still constructs. -/
theorem construction_validation_witness :
    (Manifest.init
        [Obj.dict [(MANIFEST_ID, Val.str "a"), (MANIFEST_APP_ID, Val.str "b")]]
        (some (Val.ref 0)) =
      Except.error (Err.conflictingKey MANIFEST_ID MANIFEST_APP_ID)) ∧
    (Manifest.init [Obj.dict [(MANIFEST_BRANCH, Val.int 7)]] (some (Val.ref 0)) =
      Except.ok ([Obj.dict [(MANIFEST_BRANCH, Val.int 7)]],
        ⟨Val.ref 0, none, none, none, none, none⟩)) :=
  ⟨(construction_validation
      [Obj.dict [(MANIFEST_ID, Val.str "a"), (MANIFEST_APP_ID, Val.str "b")]] 0
      [(MANIFEST_ID, Val.str "a"), (MANIFEST_APP_ID, Val.str "b")] rfl).1 rfl rfl,
   (construction_validation [Obj.dict [(MANIFEST_BRANCH, Val.int 7)]] 0
      [(MANIFEST_BRANCH, Val.int 7)] rfl).2 (by decide)⟩

/-- C6 as stated is false for the empty string: writing `""` stores it under
the primary key, but the Python truthiness test `if not self._id` treats the
cached `""` as unset, so the next read re-derives from the raw document — here
made visible by mutating the document between the write and the read, after
which the read raises instead of returning the written value. -/
theorem set_id_counterexample :
    Manifest.set_id [Obj.dict [(MANIFEST_ID, Val.str "x")]]
        ⟨Val.ref 0, none, none, none, none, none⟩ (Val.str "") =
      Except.ok ([Obj.dict [(MANIFEST_ID, Val.str "")]],
        ⟨Val.ref 0, some "", none, none, none, none⟩) ∧
    Manifest.id
        (heapSet [Obj.dict [(MANIFEST_ID, Val.str "")]] 0
          (Obj.dict [(MANIFEST_ID, Val.int 1)]))
        ⟨Val.ref 0, some "", none, none, none, none⟩ =
      Except.error (Err.typeError MANIFEST_ID) :=
  ⟨rfl, rfl⟩

/-- C6 amended: writing a *non-empty* string to `id` stores it under the
primary key, removes the legacy key (the two representations never coexist
after the write), and updates the cache so that every subsequent read returns
the written value without consulting the raw document at all (the read is
independent of the heap); writing a non-string raises the type error before
any mutation (no state is produced).  Writing the empty string performs the
same document update, but the falsy cache check makes the next read re-derive
from the document. -/
theorem set_id_amended (h : Heap) (m : Manifest) (da : Addr)
    (es : List (String × Val)) (s : String)
    (hdata : m.data = Val.ref da) (hda : heapGet h da = some (Obj.dict es))
    (hwf : dictWF es) (hs : s ≠ "") :
    (Manifest.set_id h m (Val.str s) =
      Except.ok (heapSet h da
          (Obj.dict (dictPop (dictSet es MANIFEST_ID (Val.str s)) MANIFEST_APP_ID)),
        { m with _id := some s })) ∧
    (dictGet (dictPop (dictSet es MANIFEST_ID (Val.str s)) MANIFEST_APP_ID)
        MANIFEST_ID = some (Val.str s)) ∧
    (dictGet (dictPop (dictSet es MANIFEST_ID (Val.str s)) MANIFEST_APP_ID)
        MANIFEST_APP_ID = none) ∧
    (∀ h2, Manifest.id h2 { m with _id := some s } =
      Except.ok ({ m with _id := some s }, s)) ∧
    (∀ v, (∀ t, v ≠ Val.str t) →
      Manifest.set_id h m v = Except.error (Err.typeError "expect_type")) := by
  refine ⟨?_, ?_, ?_, ?_, ?_⟩
  · unfold Manifest.set_id expect_type_str
    rw [hdata]
    simp only [hda]
  · rw [dictGet_dictPop_ne _ (by decide), dictGet_dictSet_self]
  · exact dictGet_dictPop_self _ (dictWF_dictSet _ _ hwf)
  · intro h2
    simp only [Manifest.id, if_neg hs]
  · intro v hv
    unfold Manifest.set_id expect_type_str
    cases v with
    | str t => exact absurd rfl (hv t)
    | int n => rfl
    | nil => rfl
    | ref b => rfl

/-- Witness for the amended C6 at a concrete document holding only the legacy
key. -/
theorem set_id_amended_witness :
    (Manifest.set_id [Obj.dict [(MANIFEST_APP_ID, Val.str "y")]]
        ⟨Val.ref 0, none, none, none, none, none⟩ (Val.str "z") =
      Except.ok ([Obj.dict [(MANIFEST_ID, Val.str "z")]],
        ⟨Val.ref 0, some "z", none, none, none, none⟩)) ∧
    (dictGet [(MANIFEST_ID, Val.str "z")] MANIFEST_ID = some (Val.str "z")) ∧
    (dictGet [(MANIFEST_ID, Val.str "z")] MANIFEST_APP_ID = none) ∧
    (∀ h2, Manifest.id h2 ⟨Val.ref 0, some "z", none, none, none, none⟩ =
      Except.ok (⟨Val.ref 0, some "z", none, none, none, none⟩, "z")) ∧
    (∀ v, (∀ t, v ≠ Val.str t) →
      Manifest.set_id [Obj.dict [(MANIFEST_APP_ID, Val.str "y")]]
          ⟨Val.ref 0, none, none, none, none, none⟩ v =
        Except.error (Err.typeError "expect_type")) :=
  set_id_amended [Obj.dict [(MANIFEST_APP_ID, Val.str "y")]]
    ⟨Val.ref 0, none, none, none, none, none⟩ 0
    [(MANIFEST_APP_ID, Val.str "y")] "z" rfl rfl (by unfold dictWF; decide)
    (by decide)

/-- C7: `ensure_list` is idempotent and identity-preserving: an absent key
gets a fresh empty list that is stored into the mapping and returned, and a
second call returns the very same list object (same address, heap unchanged);
a key already holding a list returns exactly that list object with the heap
untouched; a key holding any non-list value raises the type error (producing
no new state, so the mapping is unchanged). -/
theorem ensure_list_props (h : Heap) (da : Addr) (es : List (String × Val))
    (key : String) (hda : heapGet h da = some (Obj.dict es)) :
    (dictGet es key = none →
      ∃ h' a, ensure_list h (Val.ref da) key = Except.ok (h', a) ∧
        heapGet h' a = some (Obj.list []) ∧
        heapGet h' da = some (Obj.dict (dictSet es key (Val.ref a))) ∧
        ensure_list h' (Val.ref da) key = Except.ok (h', a)) ∧
    (∀ a items, dictGet es key = some (Val.ref a) →
      heapGet h a = some (Obj.list items) →
      ensure_list h (Val.ref da) key = Except.ok (h, a)) ∧
    (∀ v, dictGet es key = some v →
      (∀ b, v = Val.ref b → ∀ l, heapGet h b ≠ some (Obj.list l)) →
      ensure_list h (Val.ref da) key = Except.error (Err.typeError key)) := by
  refine ⟨?_, ?_, ?_⟩
  · intro hnone
    have hlt : da < h.length := heapGet_lt hda
    have hlen : da ≠ h.length := Nat.ne_of_lt hlt
    have hget1 : heapGet (heapSet (h ++ [Obj.list []]) da
        (Obj.dict (dictSet es key (Val.ref h.length)))) h.length =
        some (Obj.list []) := by
      rw [heapGet_heapSet_ne _ _ _ (Ne.symm hlen)]
      exact heapGet_append_length h (Obj.list [])
    have hget2 : heapGet (heapSet (h ++ [Obj.list []]) da
        (Obj.dict (dictSet es key (Val.ref h.length)))) da =
        some (Obj.dict (dictSet es key (Val.ref h.length))) := by
      refine heapGet_heapSet_self _ ?_
      rw [List.length_append]
      exact Nat.lt_of_lt_of_le hlt (Nat.le_add_right _ _)
    refine ⟨heapSet (h ++ [Obj.list []]) da
        (Obj.dict (dictSet es key (Val.ref h.length))), h.length, ?_, hget1,
        hget2, ?_⟩
    · unfold ensure_list
      simp only [hda, hnone, heapAlloc]
    · unfold ensure_list
      simp only [hget2, dictGet_dictSet_self, hget1]
  · intro a items hget ha
    unfold ensure_list
    simp only [hda, hget, ha]
  · intro v hget hnl
    cases v with
    | str t => unfold ensure_list; simp only [hda, hget]
    | int n => unfold ensure_list; simp only [hda, hget]
    | nil => unfold ensure_list; simp only [hda, hget]
    | ref b =>
      cases hg : heapGet h b with
      | none => unfold ensure_list; simp only [hda, hget, hg]
      | some o =>
        cases o with
        | dict es2 => unfold ensure_list; simp only [hda, hget, hg]
        | list l => exact absurd hg (hnl b rfl l)

/-- Witness for C7: materialization of an absent key, identity on a present
list, and type error on a string value. -/
theorem ensure_list_props_witness :
    (∃ h' a, ensure_list [Obj.dict []] (Val.ref 0) "name" = Except.ok (h', a) ∧
      heapGet h' a = some (Obj.list []) ∧
      heapGet h' 0 = some (Obj.dict (dictSet [] "name" (Val.ref a))) ∧
      ensure_list h' (Val.ref 0) "name" = Except.ok (h', a)) ∧
    (ensure_list [Obj.dict [("name", Val.ref 1)], Obj.list [Val.int 5]]
        (Val.ref 0) "name" =
      Except.ok ([Obj.dict [("name", Val.ref 1)], Obj.list [Val.int 5]], 1)) ∧
    (ensure_list [Obj.dict [("name", Val.str "value")]] (Val.ref 0) "name" =
      Except.error (Err.typeError "name")) :=
  ⟨(ensure_list_props [Obj.dict []] 0 [] "name" rfl).1 rfl,
   (ensure_list_props [Obj.dict [("name", Val.ref 1)], Obj.list [Val.int 5]] 0
      [("name", Val.ref 1)] "name" rfl).2.1 1 [Val.int 5] rfl rfl,
   (ensure_list_props [Obj.dict [("name", Val.str "value")]] 0
      [("name", Val.str "value")] "name" rfl).2.2 (Val.str "value") rfl
      (fun b hb => Val.noConfusion hb)⟩

/-- C8: `find_module` performs a linear scan over the wrapper modules in order
and returns the first module whose name equals the given string; every module
whose name read fails (absent or non-string name) is silently skipped — its
per-module error is treated as "no match" and never propagated, so a later
module with a matching valid name is still found; if no module matches, `None`
is returned. -/
theorem find_module_skips (h : Heap) (name : String) :
    (∀ x rest e, Module.name h x = Except.error e →
      findFirst h name (x :: rest) = findFirst h name rest) ∧
    (∀ pre mod rest, (∀ x ∈ pre, Module.name h x ≠ Except.ok name) →
      Module.name h mod = Except.ok name →
      findFirst h name (pre ++ mod :: rest) = Except.ok (some mod)) ∧
    (∀ ms, (∀ x ∈ ms, Module.name h x ≠ Except.ok name) →
      findFirst h name ms = Except.ok none) ∧
    (∀ ms, ∃ r, findFirst h name ms = Except.ok r) ∧
    (∀ m ms r, m._modules = some ms → findFirst h name ms = Except.ok r →
      Manifest.find_module h m name = Except.ok (h, m, r)) := by
  refine ⟨?_, ?_, ?_, findFirst_total h name, ?_⟩
  · intro x rest e he
    simp only [findFirst, he, name_error_catchable he, if_true]
  · intro pre mod rest hpre hmod
    induction pre with
    | nil =>
      rw [List.nil_append]
      simp only [findFirst, hmod, eq_self_iff_true, if_true]
    | cons x xs ih =>
      have hx := hpre x (List.mem_cons_self _ _)
      have hxs : ∀ y ∈ xs, Module.name h y ≠ Except.ok name :=
        fun y hy => hpre y (List.mem_cons_of_mem _ hy)
      rw [List.cons_append]
      cases hn : Module.name h x with
      | ok n =>
        have hne : n ≠ name := fun hc => hx (by rw [hn, hc])
        simp only [findFirst, hn, if_neg hne]
        exact ih hxs
      | error e =>
        simp only [findFirst, hn, name_error_catchable hn, if_true]
        exact ih hxs
  · intro ms hms
    induction ms with
    | nil => rfl
    | cons x xs ih =>
      have hx := hms x (List.mem_cons_self _ _)
      have hxs : ∀ y ∈ xs, Module.name h y ≠ Except.ok name :=
        fun y hy => hms y (List.mem_cons_of_mem _ hy)
      cases hn : Module.name h x with
      | ok n =>
        have hne : n ≠ name := fun hc => hx (by rw [hn, hc])
        simp only [findFirst, hn, if_neg hne]
        exact ih hxs
      | error e =>
        simp only [findFirst, hn, name_error_catchable hn, if_true]
        exact ih hxs
  · intro m ms r hm hf
    unfold Manifest.find_module Manifest.modules
    rw [hm]
    simp only [hf]

/-- A heap with one nameless module, one module with a non-string name, and a
valid module named `x`, for exercising C8. -/
def fixture8_heap : Heap :=
  [Obj.dict [], Obj.dict [(MODULE_NAME, Val.int 1)],
   Obj.dict [(MODULE_NAME, Val.str "x")]]

/-- Witness for C8: the nameless module is skipped; with a nameless and a
wrong-typed module before it, the later valid module named `x` is still
found; two malformed modules alone yield no match; the scan never errors; and
`find_module` wires the scan to the cached wrapper list. -/
theorem find_module_skips_witness :
    (findFirst fixture8_heap "x"
        [Module.mk (Val.ref 0), Module.mk (Val.ref 1), Module.mk (Val.ref 2)] =
      findFirst fixture8_heap "x" [Module.mk (Val.ref 1), Module.mk (Val.ref 2)]) ∧
    (findFirst fixture8_heap "x"
        ([Module.mk (Val.ref 0), Module.mk (Val.ref 1)] ++
          Module.mk (Val.ref 2) :: []) =
      Except.ok (some (Module.mk (Val.ref 2)))) ∧
    (findFirst fixture8_heap "x" [Module.mk (Val.ref 0), Module.mk (Val.ref 1)] =
      Except.ok none) ∧
    (∃ r, findFirst fixture8_heap "x"
        [Module.mk (Val.ref 0), Module.mk (Val.ref 1), Module.mk (Val.ref 2)] =
      Except.ok r) ∧
    (Manifest.find_module fixture8_heap
        ⟨Val.ref 0, none, some [Module.mk (Val.ref 2)], some 1, none, none⟩ "x" =
      Except.ok (fixture8_heap,
        ⟨Val.ref 0, none, some [Module.mk (Val.ref 2)], some 1, none, none⟩,
        some (Module.mk (Val.ref 2)))) :=
  ⟨(find_module_skips fixture8_heap "x").1 (Module.mk (Val.ref 0))
      [Module.mk (Val.ref 1), Module.mk (Val.ref 2)]
      (Err.missingField MODULE_NAME) rfl,
   (find_module_skips fixture8_heap "x").2.1
      [Module.mk (Val.ref 0), Module.mk (Val.ref 1)] (Module.mk (Val.ref 2)) []
      (by decide) rfl,
   (find_module_skips fixture8_heap "x").2.2.1
      [Module.mk (Val.ref 0), Module.mk (Val.ref 1)] (by decide),
   (find_module_skips fixture8_heap "x").2.2.2.1
      [Module.mk (Val.ref 0), Module.mk (Val.ref 1), Module.mk (Val.ref 2)],
   (find_module_skips fixture8_heap "x").2.2.2.2
      ⟨Val.ref 0, none, some [Module.mk (Val.ref 2)], some 1, none, none⟩
      [Module.mk (Val.ref 2)] (some (Module.mk (Val.ref 2))) rfl rfl⟩

/-- C10: `Module.new(name, **fields)` wraps a freshly built mapping consisting
of the extra fields with the name key set to the name argument; a `name` entry
among the extra fields is overwritten by the name argument, so the new
module's `name` reads back as the argument, while every other field is kept. -/
theorem module_new_name (h : Heap) (name : String)
    (fields : List (String × Val)) :
    Module.new h name fields =
      (h ++ [Obj.dict (dictSet fields MODULE_NAME (Val.str name))],
       Module.mk (Val.ref h.length)) ∧
    Module.name (Module.new h name fields).1 (Module.new h name fields).2 =
      Except.ok name ∧
    dictGet (dictSet fields MODULE_NAME (Val.str name)) MODULE_NAME =
      some (Val.str name) ∧
    (∀ k, k ≠ MODULE_NAME →
      dictGet (dictSet fields MODULE_NAME (Val.str name)) k =
        dictGet fields k) := by
  refine ⟨rfl, ?_, dictGet_dictSet_self _ _ _, ?_⟩
  · unfold Module.name ensure_string Module.new heapAlloc
    simp only [heapGet_append_length, dictGet_dictSet_self]
  · intro k hk
    exact dictGet_dictSet_ne _ _ hk

/-- Witness for C10: the name argument overwrites a conflicting `name` entry
among the extra fields, the extra field `x` survives, and the fresh module's
name reads back. -/
theorem module_new_name_witness :
    Module.new [] "extra" [(MODULE_NAME, Val.str "old"), ("x", Val.int 1)] =
      ([Obj.dict [(MODULE_NAME, Val.str "extra"), ("x", Val.int 1)]],
       Module.mk (Val.ref 0)) ∧
    Module.name [Obj.dict [(MODULE_NAME, Val.str "extra"), ("x", Val.int 1)]]
        (Module.mk (Val.ref 0)) = Except.ok "extra" ∧
    dictGet [(MODULE_NAME, Val.str "extra"), ("x", Val.int 1)] MODULE_NAME =
      some (Val.str "extra") ∧
    dictGet [(MODULE_NAME, Val.str "extra"), ("x", Val.int 1)] "x" =
      dictGet [(MODULE_NAME, Val.str "old"), ("x", Val.int 1)] "x" :=
  ⟨(module_new_name [] "extra"
      [(MODULE_NAME, Val.str "old"), ("x", Val.int 1)]).1,
   (module_new_name [] "extra"
      [(MODULE_NAME, Val.str "old"), ("x", Val.int 1)]).2.1,
   (module_new_name [] "extra"
      [(MODULE_NAME, Val.str "old"), ("x", Val.int 1)]).2.2.1,
   (module_new_name [] "extra"
      [(MODULE_NAME, Val.str "old"), ("x", Val.int 1)]).2.2.2 "x" (by decide)⟩

end Nufb
